import Mathlib

/-!
Verification of the Test Identity and Duplicate-Test Detection Engine
(backend/agents/report_agent.py and backend/agents/mock_agent.py).

The Python string methods lower/strip/title are modelled with ASCII case
semantics (the registry tables and all canonical names are ASCII); Python
dates are modelled by their proleptic Gregorian ordinal (the same day
numbering used by date.toordinal), so that subtraction of dates in days is
subtraction of ordinals.
-/

namespace SwasthyaPath

/-! Character-level model of the Python string operations. -/

/-- Model of the whitespace characters removed by str.strip: the characters
for which Python str.isspace holds, namely 0x09-0x0D, 0x1C-0x20, 0x85, 0xA0,
0x1680, 0x2000-0x200A, 0x2028, 0x2029, 0x202F, 0x205F and 0x3000. -/
def isSpaceChar (c : Char) : Bool :=
  (9 ≤ c.toNat && c.toNat ≤ 13) || (28 ≤ c.toNat && c.toNat ≤ 32) ||
  c.toNat = 133 || c.toNat = 160 || c.toNat = 5760 ||
  (8192 ≤ c.toNat && c.toNat ≤ 8202) || c.toNat = 8232 || c.toNat = 8233 ||
  c.toNat = 8239 || c.toNat = 8287 || c.toNat = 12288

/-- Model of Python "cased character" used by str.title (ASCII letters). -/
def isCasedChar (c : Char) : Bool :=
  (65 ≤ c.toNat && c.toNat ≤ 90) || (97 ≤ c.toNat && c.toNat ≤ 122)

/-- Model of str.lower on one character (ASCII). -/
def lowerChar (c : Char) : Char :=
  if 65 ≤ c.toNat ∧ c.toNat ≤ 90 then Char.ofNat (c.toNat + 32) else c

/-- Model of str.upper on one character (ASCII). -/
def upperChar (c : Char) : Char :=
  if 97 ≤ c.toNat ∧ c.toNat ≤ 122 then Char.ofNat (c.toNat - 32) else c

/-- Model of str.lower. -/
def pyLower (s : String) : String := ⟨s.data.map lowerChar⟩

/-- Drop leading whitespace of a character list. -/
def stripL (l : List Char) : List Char := l.dropWhile isSpaceChar

/-- Drop trailing whitespace of a character list. -/
def stripR (l : List Char) : List Char := (l.reverse.dropWhile isSpaceChar).reverse

/-- Model of str.strip on a character list. -/
def stripList (l : List Char) : List Char := stripR (stripL l)

/-- Model of str.strip. -/
def pyStrip (s : String) : String := ⟨stripList s.data⟩

/-- Model of str.title on a character list; the flag records whether the
previous character was cased. -/
def titleList : Bool → List Char → List Char
  | _, [] => []
  | prev, c :: cs =>
    if isCasedChar c then
      (if prev then lowerChar c else upperChar c) :: titleList true cs
    else
      c :: titleList false cs

/-- Model of str.title. -/
def pyTitle (s : String) : String := ⟨titleList false s.data⟩

/-! The registry tables of report_agent.py, as ordered association lists
(Python dicts preserve insertion order and all keys below are distinct). -/

/-- INDIAN_TEST_COSTS of report_agent.py. -/
def INDIAN_TEST_COSTS : List (String × Nat) := [
  ("HbA1c", 700),
  ("Lipid Profile", 1000),
  ("CBC", 500),
  ("Complete Blood Count", 500),
  ("Hemoglobin", 150),
  ("Thyroid Panel", 800),
  ("TSH", 350),
  ("T3", 300),
  ("T4", 300),
  ("Liver Function Test", 900),
  ("LFT", 900),
  ("Kidney Function Test", 850),
  ("KFT", 850),
  ("Creatinine", 250),
  ("Urea", 200),
  ("Blood Sugar Fasting", 100),
  ("Blood Sugar PP", 100),
  ("HBA1C", 700),
  ("Fasting Blood Sugar", 100),
  ("Random Blood Sugar", 100),
  ("Uric Acid", 250),
  ("Vitamin D", 1200),
  ("Vitamin B12", 800),
  ("Iron Studies", 600),
  ("Ferritin", 500),
  ("ESR", 150),
  ("CRP", 400),
  ("Electrolytes", 500),
  ("Calcium", 200),
  ("Phosphorus", 200),
  ("Magnesium", 300),
  ("Sodium", 150),
  ("Potassium", 150),
  ("Chloride", 150),
  ("LDL Cholesterol", 350),
  ("HDL Cholesterol", 350),
  ("Triglycerides", 350),
  ("Total Cholesterol", 350),
  ("VLDL", 250),
  ("Prothrombin Time", 400),
  ("PT INR", 400),
  ("APTT", 400),
  ("D-Dimer", 1500),
  ("Troponin", 1200),
  ("BNP", 2000),
  ("PSA", 800),
  ("CA-125", 1500),
  ("AFP", 800),
  ("CEA", 1000),
  ("Urine Routine", 200),
  ("Urine Culture", 600),
  ("Microalbumin", 500),
  ("24 Hour Urine Protein", 400),
  ("X-Ray Chest", 600),
  ("X-Ray", 500),
  ("Ultrasound Abdomen", 1200),
  ("Ultrasound", 1000),
  ("ECG", 400),
  ("Echo", 2500),
  ("Echocardiography", 2500),
  ("CT Scan", 5000),
  ("MRI", 8000),
  ("PET Scan", 25000),
  ("Mammography", 2000),
  ("Bone Density", 2500),
  ("DEXA Scan", 2500),
  ("Stool Test", 300),
  ("Stool Culture", 600),
  ("Sputum Test", 300),
  ("COVID-19 RT-PCR", 500),
  ("Dengue NS1", 600),
  ("Malaria Test", 400),
  ("Typhoid Test", 400),
  ("Widal Test", 300)]

/-- VALIDITY_PERIODS of report_agent.py (validity in days; includes the
"default" entry). -/
def VALIDITY_PERIODS : List (String × Nat) := [
  ("HbA1c", 90),
  ("Lipid Profile", 180),
  ("LDL Cholesterol", 180),
  ("HDL Cholesterol", 180),
  ("Total Cholesterol", 180),
  ("Triglycerides", 180),
  ("Thyroid Panel", 90),
  ("TSH", 90),
  ("T3", 90),
  ("T4", 90),
  ("Vitamin D", 90),
  ("Vitamin B12", 90),
  ("CBC", 30),
  ("Complete Blood Count", 30),
  ("Hemoglobin", 30),
  ("Blood Sugar Fasting", 30),
  ("Fasting Blood Sugar", 30),
  ("Random Blood Sugar", 7),
  ("Blood Sugar PP", 30),
  ("Liver Function Test", 30),
  ("LFT", 30),
  ("Kidney Function Test", 30),
  ("KFT", 30),
  ("Creatinine", 30),
  ("Urea", 30),
  ("Electrolytes", 30),
  ("Uric Acid", 60),
  ("X-Ray Chest", 365),
  ("X-Ray", 365),
  ("Ultrasound Abdomen", 180),
  ("Ultrasound", 180),
  ("ECG", 180),
  ("Echo", 365),
  ("Echocardiography", 365),
  ("CT Scan", 365),
  ("MRI", 365),
  ("PSA", 90),
  ("CA-125", 90),
  ("AFP", 90),
  ("CEA", 90),
  ("Urine Routine", 14),
  ("Urine Culture", 14),
  ("default", 30)]

/-- TEST_NAME_ALIASES of report_agent.py. -/
def TEST_NAME_ALIASES : List (String × String) := [
  ("complete blood count", "CBC"),
  ("cbc", "CBC"),
  ("blood count", "CBC"),
  ("hemogram", "CBC"),
  ("hba1c", "HbA1c"),
  ("glycated hemoglobin", "HbA1c"),
  ("glycosylated hemoglobin", "HbA1c"),
  ("hb a1c", "HbA1c"),
  ("lipid panel", "Lipid Profile"),
  ("lipids", "Lipid Profile"),
  ("cholesterol test", "Lipid Profile"),
  ("thyroid function test", "Thyroid Panel"),
  ("tft", "Thyroid Panel"),
  ("thyroid profile", "Thyroid Panel"),
  ("liver function test", "Liver Function Test"),
  ("lft", "Liver Function Test"),
  ("liver panel", "Liver Function Test"),
  ("kidney function test", "Kidney Function Test"),
  ("kft", "Kidney Function Test"),
  ("renal function test", "Kidney Function Test"),
  ("rft", "Kidney Function Test"),
  ("fasting blood sugar", "Fasting Blood Sugar"),
  ("fbs", "Fasting Blood Sugar"),
  ("fasting glucose", "Fasting Blood Sugar"),
  ("random blood sugar", "Random Blood Sugar"),
  ("rbs", "Random Blood Sugar"),
  ("pp blood sugar", "Blood Sugar PP"),
  ("postprandial blood sugar", "Blood Sugar PP"),
  ("ppbs", "Blood Sugar PP"),
  ("chest x-ray", "X-Ray Chest"),
  ("chest xray", "X-Ray Chest"),
  ("cxr", "X-Ray Chest"),
  ("electrocardiogram", "ECG"),
  ("ekg", "ECG"),
  ("echocardiogram", "Echocardiography"),
  ("2d echo", "Echocardiography")]

/-- Python dict lookup d.get(k) on an insertion-ordered table with distinct
keys. -/
def dictGet {α : Type} (tbl : List (String × α)) (k : String) : Option α :=
  (tbl.find? (fun p => p.1 == k)).map (fun p => p.2)

/-- ReportIntelligenceAgent._normalize_test_name of report_agent.py. -/
def normalize_test_name (test_name : String) : String :=
  if test_name = "" then "Unknown Test"
  else
    let lower_name := pyStrip (pyLower test_name)
    match dictGet TEST_NAME_ALIASES lower_name with
    | some canonical => canonical
    | none =>
      match INDIAN_TEST_COSTS.find? (fun p => lower_name == pyLower p.1) with
      | some p => p.1
      | none => pyTitle (pyStrip test_name)

/-- ReportIntelligenceAgent.calculate_savings of report_agent.py. -/
def calculate_savings (test_name : String) : Nat :=
  (dictGet INDIAN_TEST_COSTS (normalize_test_name test_name)).getD 500

/-- ReportIntelligenceAgent.get_test_cost of report_agent.py. -/
def get_test_cost (test_name : String) : Nat :=
  (dictGet INDIAN_TEST_COSTS (normalize_test_name test_name)).getD 500

/-- ReportIntelligenceAgent.get_validity_period of report_agent.py; the
fallback is the "default" entry of VALIDITY_PERIODS. -/
def get_validity_period (test_name : String) : Nat :=
  (dictGet VALIDITY_PERIODS (normalize_test_name test_name)).getD
    ((dictGet VALIDITY_PERIODS "default").getD 0)

/-! Date model: a Python date is represented by its proleptic Gregorian
ordinal (date.toordinal; ordinal 1 is January 1 of year 1), so that
subtracting two dates in days is subtracting their ordinals. -/

/-- Gregorian leap-year rule. -/
def isLeapYear (y : Nat) : Bool := y % 4 = 0 && (y % 100 != 0 || y % 400 = 0)

/-- Number of days in month m of year y. -/
def daysInMonth (y m : Nat) : Nat :=
  if m = 2 then (if isLeapYear y then 29 else 28)
  else if m = 4 ∨ m = 6 ∨ m = 9 ∨ m = 11 then 30 else 31

/-- Days in all years before year y (proleptic Gregorian). -/
def daysBeforeYear (y : Nat) : Nat :=
  365 * (y - 1) + (y - 1) / 4 - (y - 1) / 100 + (y - 1) / 400

/-- Days in year y before month m. -/
def daysBeforeMonth (y m : Nat) : Nat :=
  ((List.range (m - 1)).map (fun i => daysInMonth y (i + 1))).sum

/-- Ordinal of year y, month m, day d, as in date.toordinal. -/
def toOrdinal (y m d : Nat) : Nat := daysBeforeYear y + daysBeforeMonth y m + d

/-- Value of an ASCII digit character. -/
def digitVal (c : Char) : Option Nat :=
  if 48 ≤ c.toNat ∧ c.toNat ≤ 57 then some (c.toNat - 48) else none

/-- Value of a two-digit group. -/
def twoDigits (a b : Char) : Option Nat := do
  let x ← digitVal a
  let y ← digitVal b
  pure (10 * x + y)

/-- Value of a four-digit group. -/
def fourDigits (a b c d : Char) : Option Nat := do
  let x ← twoDigits a b
  let y ← twoDigits c d
  pure (100 * x + y)

/-- Range validation applied by datetime.strptime with format "%Y-%m-%d"
together with the date constructor: four-digit year at least 1, month 1-12,
day valid for the month. -/
def mkYMD (y m d : Nat) : Option (Nat × Nat × Nat) :=
  if 1 ≤ y ∧ y ≤ 9999 ∧ 1 ≤ m ∧ m ≤ 12 ∧ 1 ≤ d ∧ d ≤ daysInMonth y m
  then some (y, m, d) else none

/-- Model of datetime.strptime(s, "%Y-%m-%d").date(): exactly four year
digits, a dash, a one- or two-digit month, a dash, a one- or two-digit day,
nothing left over. -/
def parseYMDList : List Char → Option (Nat × Nat × Nat)
  | [a, b, c, d, '-', e, f, '-', g, h] => do
      let y ← fourDigits a b c d
      let m ← twoDigits e f
      let dd ← twoDigits g h
      mkYMD y m dd
  | [a, b, c, d, '-', e, '-', g, h] => do
      let y ← fourDigits a b c d
      let m ← digitVal e
      let dd ← twoDigits g h
      mkYMD y m dd
  | [a, b, c, d, '-', e, f, '-', g] => do
      let y ← fourDigits a b c d
      let m ← twoDigits e f
      let dd ← digitVal g
      mkYMD y m dd
  | [a, b, c, d, '-', e, '-', g] => do
      let y ← fourDigits a b c d
      let m ← digitVal e
      let dd ← digitVal g
      mkYMD y m dd
  | _ => none

/-- Value found in the test_date field of a history record: a string, a
native date value, or anything else (for example a missing key yields the
empty string; None or a number is the third case). -/
inductive DateField
  | str (s : String)
  | dat (d : Nat)
  | other
deriving Repr, DecidableEq

/-- One record of the test_history argument of detect_duplicate. -/
structure HistRecord where
  test_name : String
  test_date : DateField
  test_value : Option String
  hospital_name : Option String
deriving Repr, DecidableEq

/-- The date-reading step of the history scan of detect_duplicate: a string
has its first ten characters parsed as "%Y-%m-%d" (errors skip the record),
a native date is accepted directly, anything else is skipped. -/
def parseHistDate : DateField → Option Nat
  | DateField.str s => (parseYMDList (s.data.take 10)).map (fun t => toOrdinal t.1 t.2.1 t.2.2)
  | DateField.dat d => some d
  | DateField.other => none

/-- The latest_test accumulator of detect_duplicate. -/
structure LatestTest where
  date : Nat
  value : Option String
  hospital : Option String
deriving Repr, DecidableEq

/-- One iteration of the history scan of detect_duplicate: a record whose
normalized name matches and whose date parses replaces the accumulator
exactly when its date is strictly greater. -/
def scanStep (canonical : String) (acc : Option LatestTest) (t : HistRecord) :
    Option LatestTest :=
  if normalize_test_name t.test_name = canonical then
    match parseHistDate t.test_date with
    | some d =>
      match acc with
      | none => some ⟨d, t.test_value, t.hospital_name⟩
      | some l => if d > l.date then some ⟨d, t.test_value, t.hospital_name⟩ else some l
    | none => acc
  else acc

/-- The history scan of detect_duplicate. -/
def findLatest (canonical : String) (history : List HistRecord) : Option LatestTest :=
  history.foldl (scanStep canonical) none

/-- Thousands grouping of a digit list given least-significant first. -/
def chunk3 : List Char → List Char
  | a :: b :: c :: d :: rest => a :: b :: c :: ',' :: chunk3 (d :: rest)
  | l => l

/-- Model of the Python format specifier ",.0f" applied to an integral
amount. -/
def formatThousands (n : Nat) : String := ⟨(chunk3 (toString n).data.reverse).reverse⟩

/-- Result dictionary of detect_duplicate; keys absent from a branch are
None-valued options. -/
structure DupResult where
  is_duplicate : Bool
  test_name : String
  message : String
  potential_savings : Nat
  original_date : Option Nat := none
  original_value : Option (Option String) := none
  days_since : Option Int := none
  validity_period : Option Nat := none
  days_remaining : Option Int := none
deriving Repr, DecidableEq

/-- ReportIntelligenceAgent.detect_duplicate of report_agent.py. -/
def detect_duplicate (test_name : String) (test_date : Nat)
    (test_history : List HistRecord) : DupResult :=
  let normalized_name := normalize_test_name test_name
  let validity_days :=
    (dictGet VALIDITY_PERIODS normalized_name).getD
      ((dictGet VALIDITY_PERIODS "default").getD 0)
  match findLatest normalized_name test_history with
  | none =>
    { is_duplicate := false
      test_name := normalized_name
      message := "No previous test found"
      potential_savings := 0 }
  | some latest =>
    let days_since : Int := (test_date : Int) - (latest.date : Int)
    if days_since ≤ (validity_days : Int) then
      let savings := calculate_savings normalized_name
      { is_duplicate := true
        test_name := normalized_name
        original_date := some latest.date
        original_value := some latest.value
        days_since := some days_since
        validity_period := some validity_days
        days_remaining := some ((validity_days : Int) - days_since)
        potential_savings := savings
        message := "⚠️ Duplicate Alert: " ++ normalized_name ++ " was done " ++
          toString days_since ++ " days ago. This test is typically valid for " ++
          toString validity_days ++ " days. You could save ₹" ++
          formatThousands savings ++ " by using the previous result." }
    else
      { is_duplicate := false
        test_name := normalized_name
        original_date := some latest.date
        days_since := some days_since
        validity_period := some validity_days
        message := "Previous " ++ normalized_name ++ " was " ++ toString days_since ++
          " days ago (validity: " ++ toString validity_days ++
          " days). New test recommended."
        potential_savings := 0 }


/-! Demo-mode agent of mock_agent.py. Its pure engine methods are separate
definitions translated from that file; they consult the same three registry
tables, which mock_agent.py imports from report_agent.py. -/

/-- MockReportIntelligenceAgent._normalize_test_name of mock_agent.py. -/
def mock_normalize_test_name (test_name : String) : String :=
  if test_name = "" then "Unknown Test"
  else
    let lower_name := pyStrip (pyLower test_name)
    match dictGet TEST_NAME_ALIASES lower_name with
    | some canonical => canonical
    | none =>
      match INDIAN_TEST_COSTS.find? (fun p => lower_name == pyLower p.1) with
      | some p => p.1
      | none => pyTitle (pyStrip test_name)

/-- MockReportIntelligenceAgent.calculate_savings of mock_agent.py. -/
def mock_calculate_savings (test_name : String) : Nat :=
  (dictGet INDIAN_TEST_COSTS (mock_normalize_test_name test_name)).getD 500

/-- MockReportIntelligenceAgent.get_test_cost of mock_agent.py. -/
def mock_get_test_cost (test_name : String) : Nat :=
  (dictGet INDIAN_TEST_COSTS (mock_normalize_test_name test_name)).getD 500

/-- MockReportIntelligenceAgent.get_validity_period of mock_agent.py. -/
def mock_get_validity_period (test_name : String) : Nat :=
  (dictGet VALIDITY_PERIODS (mock_normalize_test_name test_name)).getD
    ((dictGet VALIDITY_PERIODS "default").getD 0)

/-- History scan of MockReportIntelligenceAgent.detect_duplicate. -/
def mockFindLatest (canonical : String) (history : List HistRecord) :
    Option LatestTest :=
  history.foldl
    (fun acc t =>
      if mock_normalize_test_name t.test_name = canonical then
        match parseHistDate t.test_date with
        | some d =>
          match acc with
          | none => some ⟨d, t.test_value, t.hospital_name⟩
          | some l => if d > l.date then some ⟨d, t.test_value, t.hospital_name⟩ else some l
        | none => acc
      else acc)
    none

/-- MockReportIntelligenceAgent.detect_duplicate of mock_agent.py. -/
def mock_detect_duplicate (test_name : String) (test_date : Nat)
    (test_history : List HistRecord) : DupResult :=
  let normalized_name := mock_normalize_test_name test_name
  let validity_days :=
    (dictGet VALIDITY_PERIODS normalized_name).getD
      ((dictGet VALIDITY_PERIODS "default").getD 0)
  match mockFindLatest normalized_name test_history with
  | none =>
    { is_duplicate := false
      test_name := normalized_name
      message := "No previous test found"
      potential_savings := 0 }
  | some latest =>
    let days_since : Int := (test_date : Int) - (latest.date : Int)
    if days_since ≤ (validity_days : Int) then
      let savings := mock_calculate_savings normalized_name
      { is_duplicate := true
        test_name := normalized_name
        original_date := some latest.date
        original_value := some latest.value
        days_since := some days_since
        validity_period := some validity_days
        days_remaining := some ((validity_days : Int) - days_since)
        potential_savings := savings
        message := "⚠️ Duplicate Alert: " ++ normalized_name ++ " was done " ++
          toString days_since ++ " days ago. This test is typically valid for " ++
          toString validity_days ++ " days. You could save ₹" ++
          formatThousands savings ++ " by using the previous result." }
    else
      { is_duplicate := false
        test_name := normalized_name
        original_date := some latest.date
        days_since := some days_since
        validity_period := some validity_days
        message := "Previous " ++ normalized_name ++ " was " ++ toString days_since ++
          " days ago (validity: " ++ toString validity_days ++
          " days). New test recommended."
        potential_savings := 0 }

/-- Dates of the history records that survive the scan of detect_duplicate
for a given canonical name: the record's normalized name matches and its
date parses. -/
def matchDates (c : String) (history : List HistRecord) : List Nat :=
  history.filterMap
    (fun t => if normalize_test_name t.test_name = c then parseHistDate t.test_date else none)

/-! Character-level lemmas about the ASCII case maps. -/

theorem toNat_ofNat_valid {n : Nat} (h : n < 55296) : (Char.ofNat n).toNat = n := by
  have hv : n.isValidChar := Or.inl h
  rw [Char.ofNat, dif_pos hv]
  rfl

theorem char_eq_of_toNat_eq {c d : Char} (h : c.toNat = d.toNat) : c = d := by
  rw [← Char.ofNat_toNat c, ← Char.ofNat_toNat d, h]

theorem toNat_lowerChar (c : Char) :
    (lowerChar c).toNat =
      if 65 ≤ c.toNat ∧ c.toNat ≤ 90 then c.toNat + 32 else c.toNat := by
  unfold lowerChar
  split
  · next h => exact toNat_ofNat_valid (by omega)
  · rfl

theorem toNat_upperChar (c : Char) :
    (upperChar c).toNat =
      if 97 ≤ c.toNat ∧ c.toNat ≤ 122 then c.toNat - 32 else c.toNat := by
  unfold upperChar
  split
  · next h => exact toNat_ofNat_valid (by omega)
  · rfl

theorem lowerChar_lowerChar (c : Char) : lowerChar (lowerChar c) = lowerChar c := by
  apply char_eq_of_toNat_eq
  rw [toNat_lowerChar (lowerChar c), toNat_lowerChar c]
  split_ifs <;> omega

theorem lowerChar_upperChar (c : Char) : lowerChar (upperChar c) = lowerChar c := by
  apply char_eq_of_toNat_eq
  rw [toNat_lowerChar (upperChar c), toNat_upperChar c, toNat_lowerChar c]
  split_ifs <;> omega

theorem upperChar_upperChar (c : Char) : upperChar (upperChar c) = upperChar c := by
  apply char_eq_of_toNat_eq
  rw [toNat_upperChar (upperChar c), toNat_upperChar c]
  split_ifs <;> omega

theorem isSpace_iff (c : Char) :
    isSpaceChar c = true ↔
      (9 ≤ c.toNat ∧ c.toNat ≤ 13) ∨ (28 ≤ c.toNat ∧ c.toNat ≤ 32) ∨
      c.toNat = 133 ∨ c.toNat = 160 ∨ c.toNat = 5760 ∨
      (8192 ≤ c.toNat ∧ c.toNat ≤ 8202) ∨ c.toNat = 8232 ∨ c.toNat = 8233 ∨
      c.toNat = 8239 ∨ c.toNat = 8287 ∨ c.toNat = 12288 := by
  simp [isSpaceChar]
  omega

theorem isCased_iff (c : Char) :
    isCasedChar c = true ↔
      (65 ≤ c.toNat ∧ c.toNat ≤ 90) ∨ (97 ≤ c.toNat ∧ c.toNat ≤ 122) := by
  simp [isCasedChar]

theorem isSpace_lowerChar (c : Char) : isSpaceChar (lowerChar c) = isSpaceChar c := by
  rw [Bool.eq_iff_iff, isSpace_iff, isSpace_iff, toNat_lowerChar]
  split_ifs <;> omega

theorem isSpace_upperChar (c : Char) : isSpaceChar (upperChar c) = isSpaceChar c := by
  rw [Bool.eq_iff_iff, isSpace_iff, isSpace_iff, toNat_upperChar]
  split_ifs <;> omega

theorem isCased_lowerChar (c : Char) : isCasedChar (lowerChar c) = isCasedChar c := by
  rw [Bool.eq_iff_iff, isCased_iff, isCased_iff, toNat_lowerChar]
  split_ifs <;> omega

theorem isCased_upperChar (c : Char) : isCasedChar (upperChar c) = isCasedChar c := by
  rw [Bool.eq_iff_iff, isCased_iff, isCased_iff, toNat_upperChar]
  split_ifs <;> omega

/-! List-level lemmas about strip and title. -/

theorem dropWhile_map_space (f : Char → Char)
    (hf : ∀ c, isSpaceChar (f c) = isSpaceChar c) (l : List Char) :
    (l.map f).dropWhile isSpaceChar = (l.dropWhile isSpaceChar).map f := by
  induction l with
  | nil => rfl
  | cons c cs ih =>
    rw [List.map_cons, List.dropWhile_cons, List.dropWhile_cons, hf c]
    cases h : isSpaceChar c with
    | true => simpa using ih
    | false => simp

theorem stripL_map (f : Char → Char)
    (hf : ∀ c, isSpaceChar (f c) = isSpaceChar c) (l : List Char) :
    stripL (l.map f) = (stripL l).map f :=
  dropWhile_map_space f hf l

theorem stripR_map (f : Char → Char)
    (hf : ∀ c, isSpaceChar (f c) = isSpaceChar c) (l : List Char) :
    stripR (l.map f) = (stripR l).map f := by
  unfold stripR
  rw [← List.map_reverse, dropWhile_map_space f hf, List.map_reverse]

theorem stripList_map (f : Char → Char)
    (hf : ∀ c, isSpaceChar (f c) = isSpaceChar c) (l : List Char) :
    stripList (l.map f) = (stripList l).map f := by
  unfold stripList
  rw [stripL_map f hf, stripR_map f hf]

theorem dropWhile_dropWhile (p : Char → Bool) (l : List Char) :
    (l.dropWhile p).dropWhile p = l.dropWhile p := by
  induction l with
  | nil => rfl
  | cons c cs ih =>
    rw [List.dropWhile_cons]
    cases h : p c with
    | true => simpa using ih
    | false =>
      rw [if_neg (by simp)]
      rw [List.dropWhile_cons, if_neg (by simp [h])]

theorem stripR_stripR (l : List Char) : stripR (stripR l) = stripR l := by
  unfold stripR
  rw [List.reverse_reverse, dropWhile_dropWhile]

theorem head_dropWhile_false (p : Char → Bool) (l : List Char) :
    ∀ c, (l.dropWhile p).head? = some c → p c = false := by
  induction l with
  | nil => intro c h; simp at h
  | cons a as ih =>
    intro c h
    rw [List.dropWhile_cons] at h
    cases ha : p a with
    | true => exact ih c (by rw [if_pos] at h; exact h; simp [ha])
    | false =>
      rw [if_neg (by simp [ha])] at h
      simp only [List.head?_cons, Option.some.injEq] at h
      rw [← h]; exact ha

theorem stripR_append (l : List Char) : ∃ t, l = stripR l ++ t := by
  obtain ⟨t, ht⟩ := List.dropWhile_suffix (l := l.reverse) (p := isSpaceChar)
  refine ⟨t.reverse, ?_⟩
  have : l.reverse.reverse = (t ++ l.reverse.dropWhile isSpaceChar).reverse := by rw [ht]
  rw [List.reverse_reverse, List.reverse_append] at this
  exact this

theorem head_stripR (l : List Char) {c : Char} (h : (stripR l).head? = some c) :
    l.head? = some c := by
  obtain ⟨t, ht⟩ := stripR_append l
  cases hs : stripR l with
  | nil => rw [hs] at h; simp at h
  | cons a as =>
    rw [hs] at h
    simp only [List.head?_cons, Option.some.injEq] at h
    rw [ht, hs, ← h]
    rfl

theorem stripL_eq_self (l : List Char)
    (h : ∀ c, l.head? = some c → isSpaceChar c = false) : stripL l = l := by
  cases l with
  | nil => rfl
  | cons a as =>
    unfold stripL
    rw [List.dropWhile_cons, if_neg (by simp [h a rfl])]

theorem stripL_stripList (l : List Char) : stripL (stripList l) = stripList l := by
  apply stripL_eq_self
  intro c hc
  exact head_dropWhile_false isSpaceChar l c (head_stripR (stripL l) hc)

theorem stripList_idem (l : List Char) : stripList (stripList l) = stripList l := by
  show stripR (stripL (stripList l)) = stripList l
  rw [stripL_stripList]
  exact stripR_stripR (stripL l)

theorem titleList_length (b : Bool) (l : List Char) :
    (titleList b l).length = l.length := by
  induction l generalizing b with
  | nil => rfl
  | cons c cs ih =>
    unfold titleList
    by_cases hc : isCasedChar c <;> simp [hc, ih]

theorem map_lower_title (b : Bool) (l : List Char) :
    (titleList b l).map lowerChar = l.map lowerChar := by
  induction l generalizing b with
  | nil => rfl
  | cons c cs ih =>
    unfold titleList
    by_cases hc : isCasedChar c
    · rw [if_pos hc, List.map_cons, List.map_cons, ih true]
      cases b <;> simp [lowerChar_lowerChar, lowerChar_upperChar]
    · rw [if_neg hc, List.map_cons, List.map_cons, ih false]

theorem map_space_title (b : Bool) (l : List Char) :
    (titleList b l).map isSpaceChar = l.map isSpaceChar := by
  induction l generalizing b with
  | nil => rfl
  | cons c cs ih =>
    unfold titleList
    by_cases hc : isCasedChar c
    · rw [if_pos hc, List.map_cons, List.map_cons, ih true]
      cases b <;> simp [isSpace_lowerChar, isSpace_upperChar]
    · rw [if_neg hc, List.map_cons, List.map_cons, ih false]

theorem titleList_cons (b : Bool) (c : Char) (cs : List Char) :
    titleList b (c :: cs) =
      if isCasedChar c then (if b then lowerChar c else upperChar c) :: titleList true cs
      else c :: titleList false cs := rfl

theorem titleList_titleList (b : Bool) (l : List Char) :
    titleList b (titleList b l) = titleList b l := by
  induction l generalizing b with
  | nil => rfl
  | cons c cs ih =>
    by_cases hc : isCasedChar c
    · have hout : isCasedChar (if b then lowerChar c else upperChar c) = true := by
        cases b <;> simp [isCased_lowerChar, isCased_upperChar, hc]
      rw [titleList_cons b c cs, if_pos hc, titleList_cons, if_pos hout, ih true]
      congr 1
      cases b
      · simp [upperChar_upperChar]
      · simp [lowerChar_lowerChar]
    · rw [titleList_cons b c cs, if_neg hc, titleList_cons, if_neg hc, ih false]

theorem dropWhile_eq_self_of_mask {l1 l2 : List Char}
    (h : l1.map isSpaceChar = l2.map isSpaceChar)
    (h2 : l2.dropWhile isSpaceChar = l2) :
    l1.dropWhile isSpaceChar = l1 := by
  cases l1 with
  | nil => rfl
  | cons a as =>
    cases l2 with
    | nil => simp at h
    | cons b bs =>
      simp only [List.map_cons, List.cons.injEq] at h
      have hb : isSpaceChar b = false := by
        cases hb' : isSpaceChar b with
        | false => rfl
        | true =>
          rw [List.dropWhile_cons, if_pos (by simp [hb'])] at h2
          have hlen := congrArg List.length h2
          have hle := (List.dropWhile_sublist (l := bs) isSpaceChar).length_le
          simp at hlen
          omega
      rw [List.dropWhile_cons, if_neg (by simp [h.1, hb])]

theorem stripL_of_stripList_eq {l : List Char} (hl : stripList l = l) :
    stripL l = l := by
  have := stripL_stripList l
  rwa [hl] at this

theorem stripR_of_stripList_eq {l : List Char} (hl : stripList l = l) :
    stripR l = l := by
  have : stripR (stripList l) = stripList l := by
    unfold stripList
    exact stripR_stripR (stripL l)
  rwa [hl] at this

theorem stripList_title {l : List Char} (hl : stripList l = l) :
    stripList (titleList false l) = titleList false l := by
  have hL : stripL l = l := stripL_of_stripList_eq hl
  have hR : stripR l = l := stripR_of_stripList_eq hl
  have hmask := map_space_title false l
  have h1 : stripL (titleList false l) = titleList false l :=
    dropWhile_eq_self_of_mask hmask hL
  have hRrev : l.reverse.dropWhile isSpaceChar = l.reverse := by
    have : (l.reverse.dropWhile isSpaceChar).reverse.reverse = l.reverse := by
      rw [show (l.reverse.dropWhile isSpaceChar).reverse = l from hR]
    rwa [List.reverse_reverse] at this
  have hmaskrev : (titleList false l).reverse.map isSpaceChar = l.reverse.map isSpaceChar := by
    rw [List.map_reverse, List.map_reverse, hmask]
  have h2 : stripR (titleList false l) = titleList false l := by
    unfold stripR
    rw [dropWhile_eq_self_of_mask hmaskrev hRrev, List.reverse_reverse]
  show stripR (stripL (titleList false l)) = titleList false l
  rw [h1, h2]

theorem mem_dropWhile_of_false {p : Char → Bool} {c : Char} {l : List Char}
    (hc : c ∈ l) (h : p c = false) : c ∈ l.dropWhile p := by
  induction l with
  | nil => simp at hc
  | cons a as ih =>
    rw [List.dropWhile_cons]
    cases ha : p a with
    | true =>
      have hca : c ≠ a := by rintro rfl; rw [h] at ha; exact Bool.false_ne_true ha
      rw [if_pos (by simp [ha])]
      exact ih (by rcases List.mem_cons.mp hc with h' | h'; exact absurd h' hca; exact h')
    | false =>
      rw [if_neg (by simp [ha])]
      exact hc

theorem mem_stripList_of_false {c : Char} {l : List Char}
    (hc : c ∈ l) (h : isSpaceChar c = false) : c ∈ stripList l := by
  have h1 : c ∈ stripL l := mem_dropWhile_of_false hc h
  have h2 : c ∈ (stripL l).reverse := List.mem_reverse.mpr h1
  have h3 : c ∈ (stripL l).reverse.dropWhile isSpaceChar := mem_dropWhile_of_false h2 h
  exact List.mem_reverse.mpr h3

theorem stripList_ne_nil {l : List Char}
    (h : ∃ c ∈ l, isSpaceChar c = false) : stripList l ≠ [] := by
  obtain ⟨c, hc, hcf⟩ := h
  intro hnil
  have := mem_stripList_of_false hc hcf
  rw [hnil] at this
  simp at this

theorem dropWhile_eq_nil_of_all {p : Char → Bool} {l : List Char}
    (h : ∀ c ∈ l, p c = true) : l.dropWhile p = [] := by
  induction l with
  | nil => rfl
  | cons a as ih =>
    rw [List.dropWhile_cons, if_pos (by simp [h a (List.mem_cons_self a as)])]
    exact ih fun c hc => h c (List.mem_cons_of_mem a hc)

theorem stripList_eq_nil_of_all {l : List Char}
    (h : ∀ c ∈ l, isSpaceChar c = true) : stripList l = [] := by
  show stripR (stripL l) = []
  rw [show stripL l = [] from dropWhile_eq_nil_of_all h]
  rfl

/-! Lemmas about the normalizer. -/

theorem str_eq_of_data {s t : String} (h : s.data = t.data) : s = t :=
  congrArg String.mk h

theorem str_ne_empty_of_data {s : String} (h : s.data ≠ []) : s ≠ "" := by
  intro he
  exact h (by rw [he])

theorem dictGet_mem {α : Type} {tbl : List (String × α)} {k : String} {v : α}
    (h : dictGet tbl k = some v) : ∃ p, p ∈ tbl ∧ p.2 = v := by
  unfold dictGet at h
  cases hf : tbl.find? (fun p => p.1 == k) with
  | none => rw [hf] at h; simp at h
  | some p =>
    rw [hf] at h
    simp at h
    exact ⟨p, List.mem_of_find?_eq_some hf, h⟩

theorem normalize_eq_of_alias {s : String} (hs : s ≠ "")
    {c : String} (h : dictGet TEST_NAME_ALIASES (pyStrip (pyLower s)) = some c) :
    normalize_test_name s = c := by
  unfold normalize_test_name
  rw [if_neg hs]
  simp only [h]

theorem normalize_eq_of_cost {s : String} (hs : s ≠ "")
    (h1 : dictGet TEST_NAME_ALIASES (pyStrip (pyLower s)) = none)
    {p : String × Nat}
    (h2 : INDIAN_TEST_COSTS.find? (fun q => pyStrip (pyLower s) == pyLower q.1) = some p) :
    normalize_test_name s = p.1 := by
  unfold normalize_test_name
  rw [if_neg hs]
  simp only [h1, h2]

theorem normalize_eq_title {s : String} (hs : s ≠ "")
    (h1 : dictGet TEST_NAME_ALIASES (pyStrip (pyLower s)) = none)
    (h2 : INDIAN_TEST_COSTS.find? (fun q => pyStrip (pyLower s) == pyLower q.1) = none) :
    normalize_test_name s = pyTitle (pyStrip s) := by
  unfold normalize_test_name
  rw [if_neg hs]
  simp only [h1, h2]

theorem alias_values_fixed :
    ∀ p ∈ TEST_NAME_ALIASES, normalize_test_name p.2 = p.2 := by decide

theorem alias_values_ne_empty : ∀ p ∈ TEST_NAME_ALIASES, p.2 ≠ "" := by decide

theorem cost_keys_ne_empty : ∀ p ∈ INDIAN_TEST_COSTS, p.1 ≠ "" := by decide

theorem pyStrip_pyLower_self {s : String} :
    pyStrip (pyStrip (pyLower s)) = pyStrip (pyLower s) := by
  apply str_eq_of_data
  exact stripList_idem (s.data.map lowerChar)

theorem normalize_all_space {s : String} (hs : s ≠ "")
    (h : ∀ c ∈ s.data, isSpaceChar c = true) : normalize_test_name s = "" := by
  have hl : pyStrip (pyLower s) = "" := by
    apply str_eq_of_data
    show stripList (s.data.map lowerChar) = []
    apply stripList_eq_nil_of_all
    intro c hc
    obtain ⟨a, ha, rfl⟩ := List.mem_map.mp hc
    rw [isSpace_lowerChar]
    exact h a ha
  have h1 : dictGet TEST_NAME_ALIASES (pyStrip (pyLower s)) = none := by
    rw [hl]; decide
  have h2 : INDIAN_TEST_COSTS.find? (fun q => pyStrip (pyLower s) == pyLower q.1) = none := by
    rw [hl]; decide
  rw [normalize_eq_title hs h1 h2]
  apply str_eq_of_data
  show titleList false (stripList s.data) = []
  rw [stripList_eq_nil_of_all h]
  rfl

theorem normalize_nonempty {s : String}
    (h : ∃ c ∈ s.data, isSpaceChar c = false) : normalize_test_name s ≠ "" := by
  have hs : s ≠ "" := by
    apply str_ne_empty_of_data
    intro hnil
    obtain ⟨c, hc, _⟩ := h
    rw [hnil] at hc
    simp at hc
  cases halias : dictGet TEST_NAME_ALIASES (pyStrip (pyLower s)) with
  | some c =>
    rw [normalize_eq_of_alias hs halias]
    obtain ⟨p, hp, hpv⟩ := dictGet_mem halias
    rw [← hpv]
    exact alias_values_ne_empty p hp
  | none =>
    cases hcost : INDIAN_TEST_COSTS.find? (fun q => pyStrip (pyLower s) == pyLower q.1) with
    | some p =>
      rw [normalize_eq_of_cost hs halias hcost]
      exact cost_keys_ne_empty p (List.mem_of_find?_eq_some hcost)
    | none =>
      rw [normalize_eq_title hs halias hcost]
      apply str_ne_empty_of_data
      show titleList false (stripList s.data) ≠ []
      intro hnil
      apply stripList_ne_nil h
      have hlen := titleList_length false (stripList s.data)
      rw [hnil] at hlen
      exact List.length_eq_zero.mp hlen.symm

theorem normalize_idem_of_nonspace {s : String}
    (h : ∃ c ∈ s.data, isSpaceChar c = false) :
    normalize_test_name (normalize_test_name s) = normalize_test_name s := by
  have hs : s ≠ "" := by
    apply str_ne_empty_of_data
    intro hnil
    obtain ⟨c, hc, _⟩ := h
    rw [hnil] at hc
    simp at hc
  cases halias : dictGet TEST_NAME_ALIASES (pyStrip (pyLower s)) with
  | some c =>
    rw [normalize_eq_of_alias hs halias]
    obtain ⟨p, hp, hpv⟩ := dictGet_mem halias
    rw [← hpv]
    exact alias_values_fixed p hp
  | none =>
    cases hcost : INDIAN_TEST_COSTS.find? (fun q => pyStrip (pyLower s) == pyLower q.1) with
    | some p =>
      rw [normalize_eq_of_cost hs halias hcost]
      have hpred := List.find?_some hcost
      have hLe : pyStrip (pyLower s) = pyLower p.1 := eq_of_beq hpred
      have hp1 : p.1 ≠ "" := cost_keys_ne_empty p (List.mem_of_find?_eq_some hcost)
      have hkey : pyStrip (pyLower p.1) = pyStrip (pyLower s) := by
        rw [← hLe]
        exact pyStrip_pyLower_self
      have halias' : dictGet TEST_NAME_ALIASES (pyStrip (pyLower p.1)) = none := by
        rw [hkey]; exact halias
      have hcost' :
          INDIAN_TEST_COSTS.find? (fun q => pyStrip (pyLower p.1) == pyLower q.1) = some p := by
        rw [hkey]; exact hcost
      exact normalize_eq_of_cost hp1 halias' hcost'
    | none =>
      rw [normalize_eq_title hs halias hcost]
      have hstrip_ne : stripList s.data ≠ [] := stripList_ne_nil h
      have hy_ne : pyTitle (pyStrip s) ≠ "" := by
        apply str_ne_empty_of_data
        show titleList false (stripList s.data) ≠ []
        intro hnil
        apply hstrip_ne
        have hlen := titleList_length false (stripList s.data)
        rw [hnil] at hlen
        exact List.length_eq_zero.mp hlen.symm
      have hkey : pyStrip (pyLower (pyTitle (pyStrip s))) = pyStrip (pyLower s) := by
        apply str_eq_of_data
        show stripList ((titleList false (stripList s.data)).map lowerChar) =
          stripList (s.data.map lowerChar)
        rw [map_lower_title, stripList_map lowerChar isSpace_lowerChar,
          stripList_map lowerChar isSpace_lowerChar, stripList_idem]
      have halias' :
          dictGet TEST_NAME_ALIASES (pyStrip (pyLower (pyTitle (pyStrip s)))) = none := by
        rw [hkey]; exact halias
      have hcost' :
          INDIAN_TEST_COSTS.find?
            (fun q => pyStrip (pyLower (pyTitle (pyStrip s))) == pyLower q.1) = none := by
        rw [hkey]; exact hcost
      rw [normalize_eq_title hy_ne halias' hcost']
      apply str_eq_of_data
      show titleList false (stripList (titleList false (stripList s.data))) =
        titleList false (stripList s.data)
      rw [stripList_title (stripList_idem s.data), titleList_titleList]

/-! Bridge between the inline validity lookup of detect_duplicate and the
resolver get_validity_period applied to the canonical name. -/

theorem validity_period_canonical (name : String) :
    get_validity_period (normalize_test_name name) =
      (dictGet VALIDITY_PERIODS (normalize_test_name name)).getD 30 := by
  have hd : (dictGet VALIDITY_PERIODS "default").getD 0 = 30 := by decide
  by_cases h : ∃ c ∈ name.data, isSpaceChar c = false
  · unfold get_validity_period
    rw [normalize_idem_of_nonspace h, hd]
  · by_cases he : name = ""
    · rw [he]; decide
    · have hz : normalize_test_name name = "" := by
        apply normalize_all_space he
        intro c hc
        by_contra hcf
        exact h ⟨c, hc, by simpa using hcf⟩
      rw [hz]
      decide

/-! Characterization of the history scan of detect_duplicate. -/

theorem scanStep_skip {c : String} {acc : Option LatestTest} {t : HistRecord}
    (h : normalize_test_name t.test_name ≠ c ∨ parseHistDate t.test_date = none) :
    scanStep c acc t = acc := by
  unfold scanStep
  rcases h with h | h
  · rw [if_neg h]
  · by_cases hm : normalize_test_name t.test_name = c
    · rw [if_pos hm, h]
    · rw [if_neg hm]

theorem scanStep_match {c : String} {acc : Option LatestTest} {t : HistRecord} {d : Nat}
    (hm : normalize_test_name t.test_name = c)
    (hd : parseHistDate t.test_date = some d) :
    scanStep c acc t =
      match acc with
      | none => some ⟨d, t.test_value, t.hospital_name⟩
      | some l => if d > l.date then some ⟨d, t.test_value, t.hospital_name⟩ else some l := by
  unfold scanStep
  rw [if_pos hm, hd]

theorem scanStep_none {c : String} {t : HistRecord} {d : Nat}
    (hm : normalize_test_name t.test_name = c)
    (hd : parseHistDate t.test_date = some d) :
    scanStep c none t = some ⟨d, t.test_value, t.hospital_name⟩ := by
  unfold scanStep
  rw [if_pos hm, hd]

theorem scanStep_some {c : String} {t : HistRecord} {d : Nat} (a : LatestTest)
    (hm : normalize_test_name t.test_name = c)
    (hd : parseHistDate t.test_date = some d) :
    scanStep c (some a) t =
      if d > a.date then some ⟨d, t.test_value, t.hospital_name⟩ else some a := by
  unfold scanStep
  rw [if_pos hm, hd]

theorem matchDates_cons_skip {c : String} {t : HistRecord} {history : List HistRecord}
    (h : normalize_test_name t.test_name ≠ c ∨ parseHistDate t.test_date = none) :
    matchDates c (t :: history) = matchDates c history := by
  unfold matchDates
  rw [List.filterMap_cons]
  rcases h with h | h
  · rw [if_neg h]
  · by_cases hm : normalize_test_name t.test_name = c
    · rw [if_pos hm, h]
    · rw [if_neg hm]

theorem matchDates_cons_keep {c : String} {t : HistRecord} {history : List HistRecord}
    {d : Nat} (hm : normalize_test_name t.test_name = c)
    (hd : parseHistDate t.test_date = some d) :
    matchDates c (t :: history) = d :: matchDates c history := by
  unfold matchDates
  rw [List.filterMap_cons, if_pos hm, hd]

theorem foldl_scan_none_iff (c : String) (history : List HistRecord) :
    ∀ acc, history.foldl (scanStep c) acc = none ↔
      (acc = none ∧ matchDates c history = []) := by
  induction history with
  | nil => intro acc; simp [matchDates]
  | cons t ts ih =>
    intro acc
    rw [List.foldl_cons]
    by_cases hm : normalize_test_name t.test_name = c
    · cases hd : parseHistDate t.test_date with
      | some d =>
        rw [ih (scanStep c acc t), matchDates_cons_keep hm hd]
        constructor
        · rintro ⟨h1, -⟩
          exfalso
          cases hacc : acc with
          | none =>
            rw [hacc, scanStep_none hm hd] at h1
            simp at h1
          | some a =>
            rw [hacc, scanStep_some a hm hd] at h1
            by_cases hgt : d > a.date
            · rw [if_pos hgt] at h1; simp at h1
            · rw [if_neg hgt] at h1; simp at h1
        · rintro ⟨-, h2⟩
          simp at h2
      | none =>
        rw [scanStep_skip (Or.inr hd), ih acc, matchDates_cons_skip (Or.inr hd)]
    · rw [scanStep_skip (Or.inl hm), ih acc, matchDates_cons_skip (Or.inl hm)]

theorem foldl_scan_some (c : String) (history : List HistRecord) :
    ∀ acc l, history.foldl (scanStep c) acc = some l →
      (acc = some l ∨ l.date ∈ matchDates c history) ∧
      (∀ e ∈ matchDates c history, e ≤ l.date) ∧
      (∀ a, acc = some a → a.date ≤ l.date) := by
  induction history with
  | nil =>
    intro acc l h
    simp only [List.foldl_nil] at h
    refine ⟨Or.inl h, by simp [matchDates], ?_⟩
    intro a ha
    rw [ha] at h
    rw [Option.some.inj h]
  | cons t ts ih =>
    intro acc l h
    rw [List.foldl_cons] at h
    by_cases hm : normalize_test_name t.test_name = c
    swap
    · have hacc : scanStep c acc t = acc := scanStep_skip (Or.inl hm)
      rw [hacc] at h
      rw [matchDates_cons_skip (Or.inl hm)]
      exact ih acc l h
    cases hd : parseHistDate t.test_date with
    | none =>
      have hacc : scanStep c acc t = acc := scanStep_skip (Or.inr hd)
      rw [hacc] at h
      rw [matchDates_cons_skip (Or.inr hd)]
      exact ih acc l h
    | some d =>
      obtain ⟨ih1, ih2, ih3⟩ := ih _ l h
      rw [matchDates_cons_keep hm hd]
      have hdle : d ≤ l.date := by
        cases hacc : acc with
        | none =>
          apply ih3 ⟨d, t.test_value, t.hospital_name⟩
          rw [hacc, scanStep_none hm hd]
        | some a =>
          by_cases hgt : d > a.date
          · apply ih3 ⟨d, t.test_value, t.hospital_name⟩
            rw [hacc, scanStep_some a hm hd, if_pos hgt]
          · have := ih3 a (by rw [hacc, scanStep_some a hm hd, if_neg hgt])
            omega
      refine ⟨?_, ?_, ?_⟩
      · rcases ih1 with h1 | h1
        · cases hacc : acc with
          | none =>
            rw [hacc, scanStep_none hm hd] at h1
            right
            have h2 : l = ⟨d, t.test_value, t.hospital_name⟩ := (Option.some.inj h1).symm
            rw [h2]
            exact List.mem_cons_self _ _
          | some a =>
            by_cases hgt : d > a.date
            · rw [hacc, scanStep_some a hm hd, if_pos hgt] at h1
              right
              have h2 : l = ⟨d, t.test_value, t.hospital_name⟩ := (Option.some.inj h1).symm
              rw [h2]
              exact List.mem_cons_self _ _
            · rw [hacc, scanStep_some a hm hd, if_neg hgt] at h1
              left
              exact h1
        · right
          exact List.mem_cons_of_mem _ h1
      · intro e he
        rcases List.mem_cons.mp he with rfl | he'
        · exact hdle
        · exact ih2 e he'
      · intro a0 ha0
        by_cases hgt : d > a0.date
        · have h2 : d ≤ l.date := by
            apply ih3 ⟨d, t.test_value, t.hospital_name⟩
            rw [ha0, scanStep_some a0 hm hd, if_pos hgt]
          omega
        · exact ih3 a0 (by rw [ha0, scanStep_some a0 hm hd, if_neg hgt])

theorem foldl_scan_keep (c : String) (history : List HistRecord) (a : LatestTest)
    (h : ∀ e ∈ matchDates c history, e ≤ a.date) :
    history.foldl (scanStep c) (some a) = some a := by
  induction history with
  | nil => rfl
  | cons t ts ih =>
    rw [List.foldl_cons]
    by_cases hm : normalize_test_name t.test_name = c
    · cases hd : parseHistDate t.test_date with
      | some d =>
        have hda : d ≤ a.date := by
          apply h d
          rw [matchDates_cons_keep hm hd]
          exact List.mem_cons_self _ _
        have hs : scanStep c (some a) t = some a := by
          rw [scanStep_some a hm hd, if_neg (by omega)]
        rw [hs]
        exact ih fun e he => h e (by rw [matchDates_cons_keep hm hd]; exact List.mem_cons_of_mem _ he)
      | none =>
        rw [scanStep_skip (Or.inr hd)]
        exact ih fun e he => h e (by rw [matchDates_cons_skip (Or.inr hd)]; exact he)
    · rw [scanStep_skip (Or.inl hm)]
      exact ih fun e he => h e (by rw [matchDates_cons_skip (Or.inl hm)]; exact he)

/-! Branch equations for detect_duplicate. -/

theorem validity_days_inline (name : String) :
    (dictGet VALIDITY_PERIODS (normalize_test_name name)).getD
      ((dictGet VALIDITY_PERIODS "default").getD 0) = get_validity_period name := rfl

theorem get_validity_period_normalize (name : String) :
    get_validity_period (normalize_test_name name) = get_validity_period name := by
  rw [validity_period_canonical]
  unfold get_validity_period
  have hd : (dictGet VALIDITY_PERIODS "default").getD 0 = 30 := by decide
  rw [hd]

theorem matchDates_append (c : String) (xs ys : List HistRecord) :
    matchDates c (xs ++ ys) = matchDates c xs ++ matchDates c ys := by
  unfold matchDates
  exact List.filterMap_append xs ys _

theorem matchDates_eq_nil {c : String} {history : List HistRecord}
    (h : ∀ t ∈ history, normalize_test_name t.test_name ≠ c ∨
      parseHistDate t.test_date = none) :
    matchDates c history = [] := by
  induction history with
  | nil => rfl
  | cons t ts ih =>
    rw [matchDates_cons_skip (h t (List.mem_cons_self t ts))]
    exact ih fun t' ht' => h t' (List.mem_cons_of_mem t ht')

theorem detect_none_eq {name : String} {reqd : Nat} {history : List HistRecord}
    (h : findLatest (normalize_test_name name) history = none) :
    detect_duplicate name reqd history =
      { is_duplicate := false
        test_name := normalize_test_name name
        message := "No previous test found"
        potential_savings := 0
        original_date := none
        original_value := none
        days_since := none
        validity_period := none
        days_remaining := none } := by
  unfold detect_duplicate
  simp only [h]

theorem detect_some_pos {name : String} {reqd : Nat} {history : List HistRecord}
    {latest : LatestTest}
    (h : findLatest (normalize_test_name name) history = some latest)
    (hle : (reqd : Int) - (latest.date : Int) ≤ (get_validity_period name : Int)) :
    detect_duplicate name reqd history =
      { is_duplicate := true
        test_name := normalize_test_name name
        original_date := some latest.date
        original_value := some latest.value
        days_since := some ((reqd : Int) - (latest.date : Int))
        validity_period := some (get_validity_period name)
        days_remaining := some ((get_validity_period name : Int) -
          ((reqd : Int) - (latest.date : Int)))
        potential_savings := calculate_savings (normalize_test_name name)
        message := "⚠️ Duplicate Alert: " ++ normalize_test_name name ++ " was done " ++
          toString ((reqd : Int) - (latest.date : Int)) ++
          " days ago. This test is typically valid for " ++
          toString (get_validity_period name) ++ " days. You could save ₹" ++
          formatThousands (calculate_savings (normalize_test_name name)) ++
          " by using the previous result." } := by
  unfold detect_duplicate
  simp only [h]
  rw [validity_days_inline name, if_pos hle]

theorem detect_some_neg {name : String} {reqd : Nat} {history : List HistRecord}
    {latest : LatestTest}
    (h : findLatest (normalize_test_name name) history = some latest)
    (hgt : ¬ ((reqd : Int) - (latest.date : Int) ≤ (get_validity_period name : Int))) :
    detect_duplicate name reqd history =
      { is_duplicate := false
        test_name := normalize_test_name name
        original_date := some latest.date
        original_value := none
        days_since := some ((reqd : Int) - (latest.date : Int))
        validity_period := some (get_validity_period name)
        days_remaining := none
        potential_savings := 0
        message := "Previous " ++ normalize_test_name name ++ " was " ++
          toString ((reqd : Int) - (latest.date : Int)) ++ " days ago (validity: " ++
          toString (get_validity_period name) ++ " days). New test recommended." } := by
  unfold detect_duplicate
  simp only [h]
  rw [validity_days_inline name, if_neg hgt]

/-! Claim theorems. -/

/-- C1: when a matching history record with a parseable date survives the
scan of detect_duplicate, the result has is_duplicate true exactly when
daysSince is at most validityDays of the canonical name; in the duplicate
case potential_savings is the cost of the canonical name and days_remaining
is validityDays minus daysSince; in the non-duplicate case
potential_savings is 0 while original_date and days_since are still
populated. Negative daysSince counts as a duplicate since only the
inequality is tested. -/
theorem detect_duplicate_validity_rule (name : String) (reqd : Nat)
    (history : List HistRecord) (latest : LatestTest)
    (h : findLatest (normalize_test_name name) history = some latest) :
    ((detect_duplicate name reqd history).is_duplicate = true ↔
      (reqd : Int) - (latest.date : Int) ≤
        (get_validity_period (normalize_test_name name) : Int)) ∧
    ((reqd : Int) - (latest.date : Int) ≤
        (get_validity_period (normalize_test_name name) : Int) →
      (detect_duplicate name reqd history).potential_savings =
        get_test_cost (normalize_test_name name) ∧
      (detect_duplicate name reqd history).days_remaining =
        some ((get_validity_period (normalize_test_name name) : Int) -
          ((reqd : Int) - (latest.date : Int))) ∧
      (detect_duplicate name reqd history).original_date = some latest.date ∧
      (detect_duplicate name reqd history).days_since =
        some ((reqd : Int) - (latest.date : Int))) ∧
    (¬ ((reqd : Int) - (latest.date : Int) ≤
        (get_validity_period (normalize_test_name name) : Int)) →
      (detect_duplicate name reqd history).potential_savings = 0 ∧
      (detect_duplicate name reqd history).original_date = some latest.date ∧
      (detect_duplicate name reqd history).days_since =
        some ((reqd : Int) - (latest.date : Int))) := by
  rw [get_validity_period_normalize]
  by_cases hle : (reqd : Int) - (latest.date : Int) ≤ (get_validity_period name : Int)
  · rw [detect_some_pos h hle]
    exact ⟨iff_of_true rfl hle, fun _ => ⟨rfl, rfl, rfl, rfl⟩, fun hh => absurd hle hh⟩
  · rw [detect_some_neg h hle]
    exact ⟨iff_of_false (by simp) hle, fun hh => absurd hh hle, fun _ => ⟨rfl, rfl, rfl⟩⟩

/-- Witness for detect_duplicate_validity_rule at a concrete history. -/
theorem detect_duplicate_validity_rule_witness :
    (detect_duplicate "TSH" 100
      [⟨"TSH", DateField.dat 90, some "3.2", none⟩]).is_duplicate = true ↔
      (100 : Int) - (((⟨90, some "3.2", none⟩ : LatestTest)).date : Int) ≤
        (get_validity_period (normalize_test_name "TSH") : Int) :=
  (detect_duplicate_validity_rule "TSH" 100
    [⟨"TSH", DateField.dat 90, some "3.2", none⟩]
    ⟨90, some "3.2", none⟩ (by decide)).1

/-- C2: the surviving record used by detect_duplicate carries the maximum
parseable matching date: it bounds every matching date, original_date and
days_since are computed from it, and any permutation of the history selects
the same date. -/
theorem detect_duplicate_most_recent (name : String) (reqd : Nat)
    (history : List HistRecord) (latest : LatestTest)
    (h : findLatest (normalize_test_name name) history = some latest) :
    latest.date ∈ matchDates (normalize_test_name name) history ∧
    (∀ e ∈ matchDates (normalize_test_name name) history, e ≤ latest.date) ∧
    (detect_duplicate name reqd history).original_date = some latest.date ∧
    (detect_duplicate name reqd history).days_since =
      some ((reqd : Int) - (latest.date : Int)) ∧
    ∀ history' : List HistRecord, history.Perm history' →
      ∃ latest' : LatestTest,
        findLatest (normalize_test_name name) history' = some latest' ∧
        latest'.date = latest.date := by
  have h' : history.foldl (scanStep (normalize_test_name name)) none = some latest := h
  obtain ⟨h1, h2, -⟩ := foldl_scan_some _ history none latest h'
  have hmem : latest.date ∈ matchDates (normalize_test_name name) history := by
    rcases h1 with h1 | h1
    · exact absurd h1 (by simp)
    · exact h1
  refine ⟨hmem, h2, ?_, ?_, ?_⟩
  · by_cases hle : (reqd : Int) - (latest.date : Int) ≤ (get_validity_period name : Int)
    · rw [detect_some_pos h hle]
    · rw [detect_some_neg h hle]
  · by_cases hle : (reqd : Int) - (latest.date : Int) ≤ (get_validity_period name : Int)
    · rw [detect_some_pos h hle]
    · rw [detect_some_neg h hle]
  · intro history' hperm
    have hmd : (matchDates (normalize_test_name name) history).Perm
        (matchDates (normalize_test_name name) history') := by
      unfold matchDates
      exact hperm.filterMap _
    cases hf : findLatest (normalize_test_name name) history' with
    | none =>
      exfalso
      have hf' : history'.foldl (scanStep (normalize_test_name name)) none = none := hf
      rw [foldl_scan_none_iff] at hf'
      have hmm := hmd.mem_iff.mp hmem
      rw [hf'.2] at hmm
      simp at hmm
    | some latest' =>
      have hf' : history'.foldl (scanStep (normalize_test_name name)) none =
        some latest' := hf
      obtain ⟨h1', h2', -⟩ := foldl_scan_some _ history' none latest' hf'
      have hmem' : latest'.date ∈ matchDates (normalize_test_name name) history' := by
        rcases h1' with h1' | h1'
        · exact absurd h1' (by simp)
        · exact h1'
      refine ⟨latest', rfl, ?_⟩
      have le1 : latest'.date ≤ latest.date := h2 _ (hmd.mem_iff.mpr hmem')
      have le2 : latest.date ≤ latest'.date := h2' _ (hmd.mem_iff.mp hmem)
      omega

/-- Witness for detect_duplicate_most_recent at a three-record history given
out of date order. -/
theorem detect_duplicate_most_recent_witness :
    (detect_duplicate "HbA1c" (toOrdinal 2024 11 15)
      [⟨"HbA1c", DateField.str "2024-08-01", some "5.5", none⟩,
       ⟨"HbA1c", DateField.str "2024-10-15", some "5.8", none⟩,
       ⟨"HbA1c", DateField.str "2024-09-01", some "5.6", none⟩]).original_date =
      some (toOrdinal 2024 10 15) :=
  (detect_duplicate_most_recent "HbA1c" (toOrdinal 2024 11 15)
    [⟨"HbA1c", DateField.str "2024-08-01", some "5.5", none⟩,
     ⟨"HbA1c", DateField.str "2024-10-15", some "5.8", none⟩,
     ⟨"HbA1c", DateField.str "2024-09-01", some "5.6", none⟩]
    ⟨toOrdinal 2024 10 15, some "5.8", none⟩ (by decide)).2.2.1

/-- C3 counterexample: the whitespace-only input consisting of one space is
a non-empty string on which the normalizer returns the empty string, so the
normalizer does not return a non-empty string for every non-empty input. -/
theorem normalize_whitespace_cex :
    normalize_test_name " " = "" ∧ (" " : String) ≠ "" := by
  constructor
  · decide
  · decide

/-- C3 amended: the normalizer is total; it returns the sentinel "Unknown
Test" on the empty input and a non-empty string on every input containing a
non-whitespace character, while whitespace-only non-empty inputs yield the
empty string. -/
theorem normalize_totality_amended :
    normalize_test_name "" = "Unknown Test" ∧
    (∀ s : String, (∃ c ∈ s.data, isSpaceChar c = false) →
      normalize_test_name s ≠ "") ∧
    (∀ s : String, s ≠ "" → (∀ c ∈ s.data, isSpaceChar c = true) →
      normalize_test_name s = "") :=
  ⟨rfl, fun _ h => normalize_nonempty h, fun _ hs h => normalize_all_space hs h⟩

/-- Witness for normalize_totality_amended at concrete inputs. -/
theorem normalize_totality_amended_witness :
    normalize_test_name "TSH" ≠ "" ∧ normalize_test_name " " = "" :=
  ⟨normalize_totality_amended.2.1 "TSH" ⟨'T', by decide, by decide⟩,
   normalize_totality_amended.2.2 " " (by decide) (by decide)⟩

/-- C4 counterexample: normalization is not idempotent on the whitespace-only
input consisting of one space; the first pass yields the empty string and
the second pass yields the sentinel "Unknown Test". -/
theorem normalize_idem_cex :
    normalize_test_name (normalize_test_name " ") ≠ normalize_test_name " " := by
  decide

/-- C4 amended: normalization is idempotent on the empty string and on every
string containing a non-whitespace character; only whitespace-only non-empty
strings violate idempotence. -/
theorem normalize_idem_amended :
    ∀ s : String, s = "" ∨ (∃ c ∈ s.data, isSpaceChar c = false) →
      normalize_test_name (normalize_test_name s) = normalize_test_name s := by
  rintro s (rfl | h)
  · decide
  · exact normalize_idem_of_nonspace h

/-- Witness for normalize_idem_amended at a concrete alias. -/
theorem normalize_idem_amended_witness :
    normalize_test_name (normalize_test_name "hba1c") = normalize_test_name "hba1c" :=
  normalize_idem_amended "hba1c" (Or.inr ⟨'h', by decide, by decide⟩)

/-- C5: when no history record both normalizes to the canonical name and has
a parseable date, detect_duplicate returns exactly the no-previous-test
dictionary with all date fields absent; in particular on an empty history. -/
theorem detect_duplicate_no_match (name : String) (reqd : Nat)
    (history : List HistRecord)
    (h : ∀ t ∈ history, normalize_test_name t.test_name ≠ normalize_test_name name ∨
      parseHistDate t.test_date = none) :
    detect_duplicate name reqd history =
      { is_duplicate := false
        test_name := normalize_test_name name
        message := "No previous test found"
        potential_savings := 0
        original_date := none
        original_value := none
        days_since := none
        validity_period := none
        days_remaining := none } := by
  apply detect_none_eq
  show history.foldl (scanStep (normalize_test_name name)) none = none
  rw [foldl_scan_none_iff]
  exact ⟨rfl, matchDates_eq_nil h⟩

/-- Witness for detect_duplicate_no_match on the empty history. -/
theorem detect_duplicate_no_match_witness :
    detect_duplicate "TSH" 739204 [] =
      { is_duplicate := false
        test_name := "TSH"
        message := "No previous test found"
        potential_savings := 0
        original_date := none
        original_value := none
        days_since := none
        validity_period := none
        days_remaining := none } :=
  detect_duplicate_no_match "TSH" 739204 []
    (fun t ht => absurd ht (List.not_mem_nil t))

/-- C6: the cost and validity resolvers are total lookups of the normalized
name with defaults 500 rupees and 30 days, and an unknown name falls back to
those defaults. -/
theorem resolver_totality (name : String) :
    (get_test_cost name =
      (dictGet INDIAN_TEST_COSTS (normalize_test_name name)).getD 500 ∧
    calculate_savings name =
      (dictGet INDIAN_TEST_COSTS (normalize_test_name name)).getD 500 ∧
    get_validity_period name =
      (dictGet VALIDITY_PERIODS (normalize_test_name name)).getD 30) ∧
    get_test_cost "Some Random Test" = 500 ∧
    get_validity_period "Some Random Test" = 30 := by
  refine ⟨⟨rfl, rfl, ?_⟩, by decide, by decide⟩
  unfold get_validity_period
  have hd : (dictGet VALIDITY_PERIODS "default").getD 0 = 30 := by decide
  rw [hd]

/-- C7: a history record whose date value is neither a native date nor a
string whose first ten characters parse as YYYY-MM-DD is silently skipped:
removing it from the history does not change the result of detect_duplicate,
and the surrounding records are still processed. -/
theorem detect_duplicate_skips_unparseable (name : String) (reqd : Nat)
    (pre post : List HistRecord) (t : HistRecord)
    (h : parseHistDate t.test_date = none) :
    detect_duplicate name reqd (pre ++ t :: post) =
      detect_duplicate name reqd (pre ++ post) := by
  have hfl : findLatest (normalize_test_name name) (pre ++ t :: post) =
      findLatest (normalize_test_name name) (pre ++ post) := by
    show (pre ++ t :: post).foldl (scanStep (normalize_test_name name)) none =
      (pre ++ post).foldl (scanStep (normalize_test_name name)) none
    rw [List.foldl_append, List.foldl_append, List.foldl_cons,
      scanStep_skip (Or.inr h)]
  cases hf : findLatest (normalize_test_name name) (pre ++ post) with
  | none =>
    rw [detect_none_eq (by rw [hfl]; exact hf), detect_none_eq hf]
  | some latest =>
    by_cases hle : (reqd : Int) - (latest.date : Int) ≤ (get_validity_period name : Int)
    · rw [detect_some_pos (by rw [hfl]; exact hf) hle, detect_some_pos hf hle]
    · rw [detect_some_neg (by rw [hfl]; exact hf) hle, detect_some_neg hf hle]

/-- Witness for detect_duplicate_skips_unparseable at an unparseable string
date. -/
theorem detect_duplicate_skips_unparseable_witness :
    detect_duplicate "CBC" 5
      ([] ++ (⟨"CBC", DateField.str "not-a-date", none, none⟩ : HistRecord) :: []) =
      detect_duplicate "CBC" 5 ([] ++ []) :=
  detect_duplicate_skips_unparseable "CBC" 5 [] []
    ⟨"CBC", DateField.str "not-a-date", none, none⟩ (by decide)

/-- C8: every alias target of TEST_NAME_ALIASES is a key of the cost table
INDIAN_TEST_COSTS. -/
theorem alias_consistency :
    ∀ p ∈ TEST_NAME_ALIASES, (dictGet INDIAN_TEST_COSTS p.2).isSome = true := by
  decide

/-- Witness for alias_consistency at the alias of CBC. -/
theorem alias_consistency_witness :
    (dictGet INDIAN_TEST_COSTS ("cbc", "CBC").2).isSome = true :=
  alias_consistency ("cbc", "CBC") (by decide)

/-- C9: the demo-mode agent of mock_agent.py is behaviorally identical to the
real agent on the pure engine functions: normalization, duplicate detection,
savings, cost and validity agree on every input, both reading the same
shared registry tables. -/
theorem mock_agent_equiv :
    (∀ s, mock_normalize_test_name s = normalize_test_name s) ∧
    (∀ s, mock_calculate_savings s = calculate_savings s) ∧
    (∀ s, mock_get_test_cost s = get_test_cost s) ∧
    (∀ s, mock_get_validity_period s = get_validity_period s) ∧
    (∀ name reqd history,
      mock_detect_duplicate name reqd history = detect_duplicate name reqd history) :=
  ⟨fun _ => rfl, fun _ => rfl, fun _ => rfl, fun _ => rfl, fun _ _ _ => rfl⟩

/-- C10: when several matching parseable records share the maximal date, the
record encountered first in input order supplies the stored values, because
a later record replaces the current best only on a strictly greater date;
its test value becomes original_value when the result is a duplicate. -/
theorem detect_duplicate_tie_break (name : String) (reqd : Nat)
    (pre mid post : List HistRecord) (r1 r2 : HistRecord) (d : Nat)
    (hm1 : normalize_test_name r1.test_name = normalize_test_name name)
    (hd1 : parseHistDate r1.test_date = some d)
    (hm2 : normalize_test_name r2.test_name = normalize_test_name name)
    (hd2 : parseHistDate r2.test_date = some d)
    (hmax : ∀ e ∈ matchDates (normalize_test_name name)
      (pre ++ r1 :: (mid ++ r2 :: post)), e ≤ d)
    (hpre : ∀ e ∈ matchDates (normalize_test_name name) pre, e < d) :
    findLatest (normalize_test_name name) (pre ++ r1 :: (mid ++ r2 :: post)) =
      some ⟨d, r1.test_value, r1.hospital_name⟩ ∧
    ((detect_duplicate name reqd (pre ++ r1 :: (mid ++ r2 :: post))).is_duplicate = true →
      (detect_duplicate name reqd (pre ++ r1 :: (mid ++ r2 :: post))).original_value =
        some r1.test_value) := by
  have hrest : ∀ e ∈ matchDates (normalize_test_name name) (mid ++ r2 :: post),
      e ≤ d := by
    intro e he
    apply hmax
    rw [matchDates_append, matchDates_cons_keep hm1 hd1]
    exact List.mem_append_right _ (List.mem_cons_of_mem _ he)
  have hfl : findLatest (normalize_test_name name) (pre ++ r1 :: (mid ++ r2 :: post)) =
      some ⟨d, r1.test_value, r1.hospital_name⟩ := by
    show (pre ++ r1 :: (mid ++ r2 :: post)).foldl
      (scanStep (normalize_test_name name)) none = _
    rw [List.foldl_append, List.foldl_cons]
    have hstep : scanStep (normalize_test_name name)
        (pre.foldl (scanStep (normalize_test_name name)) none) r1 =
        some ⟨d, r1.test_value, r1.hospital_name⟩ := by
      cases hacc : pre.foldl (scanStep (normalize_test_name name)) none with
      | none => rw [scanStep_none hm1 hd1]
      | some a =>
        obtain ⟨h1, -, -⟩ := foldl_scan_some _ pre none a hacc
        have hmem : a.date ∈ matchDates (normalize_test_name name) pre := by
          rcases h1 with h1 | h1
          · exact absurd h1 (by simp)
          · exact h1
        have hlt : a.date < d := hpre _ hmem
        rw [scanStep_some a hm1 hd1, if_pos hlt]
    rw [hstep]
    exact foldl_scan_keep _ _ _ hrest
  refine ⟨hfl, ?_⟩
  intro hdup
  by_cases hle : (reqd : Int) -
      (((⟨d, r1.test_value, r1.hospital_name⟩ : LatestTest)).date : Int) ≤
      (get_validity_period name : Int)
  · rw [detect_some_pos hfl hle]
  · rw [detect_some_neg hfl hle] at hdup
    simp at hdup

/-- Witness for detect_duplicate_tie_break with two records carrying the same
date. -/
theorem detect_duplicate_tie_break_witness :
    findLatest (normalize_test_name "HbA1c")
      ([] ++ (⟨"HbA1c", DateField.str "2024-10-15", some "5.8", none⟩ : HistRecord) ::
        ([] ++ (⟨"hba1c", DateField.str "2024-10-15", some "6.0", none⟩ : HistRecord) :: [])) =
      some ⟨toOrdinal 2024 10 15, some "5.8", none⟩ :=
  (detect_duplicate_tie_break "HbA1c" (toOrdinal 2024 11 15) [] [] []
    ⟨"HbA1c", DateField.str "2024-10-15", some "5.8", none⟩
    ⟨"hba1c", DateField.str "2024-10-15", some "6.0", none⟩
    (toOrdinal 2024 10 15)
    (by decide) (by decide) (by decide) (by decide) (by decide) (by decide)).1

end SwasthyaPath
